import Mathlib

/-!
# The connection-multiplexing engine of the pyth client

A shallow embedding of `client.go`: the read loop with its reassembly buffer,
the dispatch of decoded responses and notifications, the reconnect procedure
`restart`, the request-id counter and the request/response handoff.

Conventions of the embedding.

* Go maps `map[int]chan` are association lists with distinct keys; iteration
  follows list order (Go leaves the order unspecified, and every order is some
  list).
* Channels are identified by a number handed out by `make`; the runtime keeps
  the set of closed channels. Closing a closed channel and sending on a closed
  channel panic, as in Go.
* What the code does to the outside (dialing, sleeping, sending on a channel,
  starting a goroutine) is recorded in a trace of `Event`s.
* What the outside does to the code (bytes returned by `ws.Read`, dial
  outcomes, the value received from a channel) is an argument.
* `json.Unmarshal` is the Go library call: its validity scan is modelled byte
  for byte after `encoding/json`; the reflective decoding of a valid JSON
  object into the target struct is a parameter (`ObjectDecoders`).
-/

namespace Pyth

abbrev Byte := UInt8

/-! ## `encoding/json`: the validity scan run by `json.Unmarshal` -/

/-- Return codes of the scanner step functions. -/
inductive ScanCode
  | scanContinue
  | scanBeginLiteral
  | scanBeginObject
  | scanObjectKey
  | scanObjectValue
  | scanEndObject
  | scanBeginArray
  | scanArrayValue
  | scanEndArray
  | scanSkipSpace
  | scanEnd
  | scanError
  deriving DecidableEq, Repr

/-- Entries of the scanner's parse-state stack. -/
inductive ParseState
  | parseObjectKey
  | parseObjectValue
  | parseArrayValue
  deriving DecidableEq, Repr

/-- The step functions of the scanner, as values of `scanner.step`. -/
inductive StepFn
  | stateBeginValueOrEmpty
  | stateBeginValue
  | stateBeginStringOrEmpty
  | stateBeginString
  | stateEndValue
  | stateEndTop
  | stateInString
  | stateInStringEsc
  | stateInStringEscU
  | stateInStringEscU1
  | stateInStringEscU12
  | stateInStringEscU123
  | stateNeg
  | state1
  | state0
  | stateDot
  | stateDot0
  | stateE
  | stateESign
  | stateE0
  | stateT
  | stateTr
  | stateTru
  | stateF
  | stateFa
  | stateFal
  | stateFals
  | stateN
  | stateNu
  | stateNul
  | stateError
  deriving DecidableEq, Repr

/-- A `*json.SyntaxError`; only the offset is kept, the message is dropped. -/
structure SyntaxError where
  Offset : Nat
  deriving DecidableEq, Repr

/-- The scanner. The parse-state stack has its top at the head of the list. -/
structure Scanner where
  step : StepFn
  endTop : Bool
  parseState : List ParseState
  err : Option SyntaxError
  bytes : Nat
  deriving DecidableEq, Repr

def maxNestingDepth : Nat := 10000

/-- The scanner after `reset`, with the byte count of a fresh decode state. -/
def Scanner.reset : Scanner :=
  { step := .stateBeginValue, endTop := false, parseState := [], err := none, bytes := 0 }

/-- Space, tab, carriage return or line feed. -/
def isSpace (c : Byte) : Bool :=
  decide (c ≤ 32) && (decide (c = 32) || decide (c = 9) || decide (c = 13) || decide (c = 10))

def isDigit (c : Byte) : Bool :=
  decide (48 ≤ c) && decide (c ≤ 57)

def isDigit19 (c : Byte) : Bool :=
  decide (49 ≤ c) && decide (c ≤ 57)

def isHex (c : Byte) : Bool :=
  isDigit c || (decide (97 ≤ c) && decide (c ≤ 102)) || (decide (65 ≤ c) && decide (c ≤ 70))

/-- Method `error` of the scanner: record a syntax error at the current byte count. -/
def Scanner.error (s : Scanner) : Scanner × ScanCode :=
  ({ s with step := .stateError, err := some ⟨s.bytes⟩ }, .scanError)

/-- Method `pushParseState`. -/
def Scanner.pushParseState (s : Scanner) (newParseState : ParseState)
    (successState : ScanCode) : Scanner × ScanCode :=
  let s1 := { s with parseState := newParseState :: s.parseState }
  if s1.parseState.length ≤ maxNestingDepth then (s1, successState) else s1.error

/-- Method `popParseState`. -/
def Scanner.popParseState (s : Scanner) : Scanner :=
  let rest := s.parseState.tail
  if rest.length = 0 then { s with parseState := rest, step := .stateEndTop, endTop := true }
  else { s with parseState := rest, step := .stateEndValue }

/-- After the top-level value: only space may follow. The return code is
`scanEnd` also when the error is recorded. -/
def stateEndTop (s : Scanner) (c : Byte) : Scanner × ScanCode :=
  if !isSpace c then (s.error.1, .scanEnd) else (s, .scanEnd)

/-- After a complete value: colon, comma, closing bracket or the end. -/
def stateEndValue (s : Scanner) (c : Byte) : Scanner × ScanCode :=
  match s.parseState with
  | [] => stateEndTop { s with step := .stateEndTop, endTop := true } c
  | ps :: rest =>
    if isSpace c then ({ s with step := .stateEndValue }, .scanSkipSpace)
    else
      match ps with
      | .parseObjectKey =>
        if c = 58 then
          ({ s with parseState := .parseObjectValue :: rest, step := .stateBeginValue },
            .scanObjectKey)
        else s.error
      | .parseObjectValue =>
        if c = 44 then
          ({ s with parseState := .parseObjectKey :: rest, step := .stateBeginString },
            .scanObjectValue)
        else if c = 125 then (s.popParseState, .scanEndObject)
        else s.error
      | .parseArrayValue =>
        if c = 44 then ({ s with step := .stateBeginValue }, .scanArrayValue)
        else if c = 93 then (s.popParseState, .scanEndArray)
        else s.error

/-- At the beginning of a value. -/
def stateBeginValue (s : Scanner) (c : Byte) : Scanner × ScanCode :=
  if isSpace c then (s, .scanSkipSpace)
  else if c = 123 then
    ({ s with step := .stateBeginStringOrEmpty }).pushParseState .parseObjectKey .scanBeginObject
  else if c = 91 then
    ({ s with step := .stateBeginValueOrEmpty }).pushParseState .parseArrayValue .scanBeginArray
  else if c = 34 then ({ s with step := .stateInString }, .scanBeginLiteral)
  else if c = 45 then ({ s with step := .stateNeg }, .scanBeginLiteral)
  else if c = 48 then ({ s with step := .state0 }, .scanBeginLiteral)
  else if c = 116 then ({ s with step := .stateT }, .scanBeginLiteral)
  else if c = 102 then ({ s with step := .stateF }, .scanBeginLiteral)
  else if c = 110 then ({ s with step := .stateN }, .scanBeginLiteral)
  else if isDigit19 c then ({ s with step := .state1 }, .scanBeginLiteral)
  else s.error

/-- After the opening bracket of an array. -/
def stateBeginValueOrEmpty (s : Scanner) (c : Byte) : Scanner × ScanCode :=
  if isSpace c then (s, .scanSkipSpace)
  else if c = 93 then stateEndValue s c
  else stateBeginValue s c

/-- At the beginning of an object key. -/
def stateBeginString (s : Scanner) (c : Byte) : Scanner × ScanCode :=
  if isSpace c then (s, .scanSkipSpace)
  else if c = 34 then ({ s with step := .stateInString }, .scanBeginLiteral)
  else s.error

/-- After the opening brace of an object. -/
def stateBeginStringOrEmpty (s : Scanner) (c : Byte) : Scanner × ScanCode :=
  if isSpace c then (s, .scanSkipSpace)
  else if c = 125 then
    stateEndValue { s with parseState := .parseObjectValue :: s.parseState.tail } c
  else stateBeginString s c

def stateInString (s : Scanner) (c : Byte) : Scanner × ScanCode :=
  if c = 34 then ({ s with step := .stateEndValue }, .scanContinue)
  else if c = 92 then ({ s with step := .stateInStringEsc }, .scanContinue)
  else if c < 32 then s.error
  else (s, .scanContinue)

def stateInStringEsc (s : Scanner) (c : Byte) : Scanner × ScanCode :=
  if c = 98 ∨ c = 102 ∨ c = 110 ∨ c = 114 ∨ c = 116 ∨ c = 92 ∨ c = 47 ∨ c = 34 then
    ({ s with step := .stateInString }, .scanContinue)
  else if c = 117 then ({ s with step := .stateInStringEscU }, .scanContinue)
  else s.error

/-- The four hexadecimal digits of a unicode escape share one shape. -/
def stateHexDigit (next : StepFn) (s : Scanner) (c : Byte) : Scanner × ScanCode :=
  if isHex c then ({ s with step := next }, .scanContinue) else s.error

def stateNeg (s : Scanner) (c : Byte) : Scanner × ScanCode :=
  if c = 48 then ({ s with step := .state0 }, .scanContinue)
  else if isDigit19 c then ({ s with step := .state1 }, .scanContinue)
  else s.error

def state0 (s : Scanner) (c : Byte) : Scanner × ScanCode :=
  if c = 46 then ({ s with step := .stateDot }, .scanContinue)
  else if c = 101 ∨ c = 69 then ({ s with step := .stateE }, .scanContinue)
  else stateEndValue s c

def state1 (s : Scanner) (c : Byte) : Scanner × ScanCode :=
  if isDigit c then ({ s with step := .state1 }, .scanContinue) else state0 s c

def stateDot (s : Scanner) (c : Byte) : Scanner × ScanCode :=
  if isDigit c then ({ s with step := .stateDot0 }, .scanContinue) else s.error

def stateDot0 (s : Scanner) (c : Byte) : Scanner × ScanCode :=
  if isDigit c then (s, .scanContinue)
  else if c = 101 ∨ c = 69 then ({ s with step := .stateE }, .scanContinue)
  else stateEndValue s c

def stateESign (s : Scanner) (c : Byte) : Scanner × ScanCode :=
  if isDigit c then ({ s with step := .stateE0 }, .scanContinue) else s.error

def stateE (s : Scanner) (c : Byte) : Scanner × ScanCode :=
  if c = 43 ∨ c = 45 then ({ s with step := .stateESign }, .scanContinue)
  else stateESign s c

def stateE0 (s : Scanner) (c : Byte) : Scanner × ScanCode :=
  if isDigit c then (s, .scanContinue) else stateEndValue s c

/-- The letters of `true`, `false` and `null` after the first share one shape. -/
def stateLetter (want : Byte) (next : StepFn) (s : Scanner) (c : Byte) : Scanner × ScanCode :=
  if c = want then ({ s with step := next }, .scanContinue) else s.error

/-- The call `s.step(s, c)`. -/
def Scanner.callStep (s : Scanner) (c : Byte) : Scanner × ScanCode :=
  match s.step with
  | .stateBeginValueOrEmpty => stateBeginValueOrEmpty s c
  | .stateBeginValue => stateBeginValue s c
  | .stateBeginStringOrEmpty => stateBeginStringOrEmpty s c
  | .stateBeginString => stateBeginString s c
  | .stateEndValue => stateEndValue s c
  | .stateEndTop => stateEndTop s c
  | .stateInString => stateInString s c
  | .stateInStringEsc => stateInStringEsc s c
  | .stateInStringEscU => stateHexDigit .stateInStringEscU1 s c
  | .stateInStringEscU1 => stateHexDigit .stateInStringEscU12 s c
  | .stateInStringEscU12 => stateHexDigit .stateInStringEscU123 s c
  | .stateInStringEscU123 => stateHexDigit .stateInString s c
  | .stateNeg => stateNeg s c
  | .state1 => state1 s c
  | .state0 => state0 s c
  | .stateDot => stateDot s c
  | .stateDot0 => stateDot0 s c
  | .stateE => stateE s c
  | .stateESign => stateESign s c
  | .stateE0 => stateE0 s c
  | .stateT => stateLetter 114 .stateTr s c
  | .stateTr => stateLetter 117 .stateTru s c
  | .stateTru => stateLetter 101 .stateEndValue s c
  | .stateF => stateLetter 97 .stateFa s c
  | .stateFa => stateLetter 108 .stateFal s c
  | .stateFal => stateLetter 115 .stateFals s c
  | .stateFals => stateLetter 101 .stateEndValue s c
  | .stateN => stateLetter 117 .stateNu s c
  | .stateNu => stateLetter 108 .stateNul s c
  | .stateNul => stateLetter 108 .stateEndValue s c
  | .stateError => (s, .scanError)

/-- Method `eof`: the input has ended. -/
def Scanner.eof (s : Scanner) : Scanner × ScanCode :=
  if s.err.isSome then (s, .scanError)
  else if s.endTop then (s, .scanEnd)
  else
    let s1 := (s.callStep 32).1
    if s1.endTop then (s1, .scanEnd)
    else if s1.err.isNone then ({ s1 with err := some ⟨s1.bytes⟩ }, .scanError)
    else (s1, .scanError)

/-- The loop of `checkValid` over the bytes, then `eof`. -/
def checkValidFrom : List Byte → Scanner → Option SyntaxError
  | [], s =>
    let r := s.eof
    if r.2 = .scanError then r.1.err else none
  | c :: cs, s =>
    let r := ({ s with bytes := s.bytes + 1 }).callStep c
    if r.2 = .scanError then r.1.err else checkValidFrom cs r.1

/-- Function `checkValid`: `none` when `data` is one valid JSON value. -/
def checkValid (data : List Byte) : Option SyntaxError :=
  checkValidFrom data Scanner.reset

/-! ## Protocol records (`jsonrpc.RPCResponse`, `types.go`) -/

/-- The `*jsonrpc.RPCError` of a response. -/
structure RPCError where
  Code : Int
  Message : String
  deriving DecidableEq, Repr

/-- The `jsonrpc.RPCResponse` record. `Result` is an `interface{}` the engine never
looks into; it is carried as raw text, `none` standing for nil. -/
structure RPCResponse where
  JSONRPC : String
  Result : Option String
  Error : Option RPCError
  ID : Int
  deriving DecidableEq, Repr

/-- The `jsonrpc.RPCRequest` record, as far as the engine reads it. -/
structure RPCRequest where
  Method : String
  ID : Int
  deriving DecidableEq, Repr

structure SubscriptionParams where
  Subscription : Int
  deriving DecidableEq, Repr

structure SubscriptionNotification where
  Jsonrpc : String
  Method : String
  Params : SubscriptionParams
  deriving DecidableEq, Repr

/-- The value `new(jsonrpc.RPCResponse)` points to. -/
def zeroResponse : RPCResponse :=
  { JSONRPC := "", Result := none, Error := none, ID := 0 }

/-- The value of `var notification SubscriptionNotification`. -/
def zeroNotification : SubscriptionNotification :=
  { Jsonrpc := "", Method := "", Params := { Subscription := 0 } }

/-! ## `json.Unmarshal` into a struct -/

/-- The two classes of error the read loop tells apart with `errors.As`:
a `*json.SyntaxError`, or anything else (an `*json.UnmarshalTypeError`). -/
inductive UnmarshalError
  | syntaxErr (e : SyntaxError)
  | typeErr
  deriving DecidableEq, Repr

/-- The reflective part of `json.Unmarshal` on input that is a valid JSON object:
the filled struct, or `none` when a member does not fit its field
(an `UnmarshalTypeError`). -/
structure ObjectDecoders where
  response : List Byte → Option RPCResponse
  notification : List Byte → Option SubscriptionNotification

/-- The call `json.Unmarshal(data, v)` for `v` pointing to a zero struct: first
`checkValid`, whose error is a `*json.SyntaxError`; then the top-level value decides:
an object is decoded into the fields, `null` leaves the struct as it is, and an
array, string, number or boolean is an `UnmarshalTypeError`. -/
def jsonUnmarshal {α : Type} (decodeObject : List Byte → Option α) (zero : α)
    (data : List Byte) : Except UnmarshalError α :=
  match checkValid data with
  | some e => .error (.syntaxErr e)
  | none =>
    match (data.dropWhile isSpace).head? with
    | none => .error .typeErr
    | some c =>
      if c = 123 then
        match decodeObject data with
        | some v => .ok v
        | none => .error .typeErr
      else if c = 110 then .ok zero
      else .error .typeErr

/-! ## The client, the channel runtime and the trace -/

abbrev ChanId := Nat

/-- An established `*websocket.Conn`. -/
abbrev Conn := Nat

/-- What the engine does to its environment. -/
inductive Event
  | closeChan (ch : ChanId)
  | dial
  | sleep (d : Nat)
  | goReadingLoop (ws : Option Conn)
  | sendResponse (ch : ChanId) (response : RPCResponse)
  | sendSignal (ch : ChanId)
  deriving DecidableEq, Repr

/-- The `Client` struct (the mutexes and the logger are left out); `ws` is `none`
for a nil connection and `id` is the `uint64` counter. -/
structure Client where
  ws : Option Conn
  id : Nat
  responses : List (Int × ChanId)
  subscriptions : List (Int × ChanId)
  deriving DecidableEq, Repr

/-- The client together with the channel runtime and the trace so far. -/
structure World where
  p : Client
  nextChan : ChanId
  closed : List ChanId
  trace : List Event
  deriving DecidableEq, Repr

/-- How a call ended: it returned, it panicked, or the scripted dial outcomes ran
out while it was still dialing. -/
inductive Status
  | ok
  | panicked
  | starved
  deriving DecidableEq, Repr

/-- Map lookup `m[k]` with the comma-ok result. -/
def mapGet (m : List (Int × ChanId)) (k : Int) : Option ChanId :=
  match m with
  | [] => none
  | (k1, v) :: rest => if k1 = k then some v else mapGet rest k

/-- Map removal `delete(m, k)`. -/
def mapDelete (m : List (Int × ChanId)) (k : Int) : List (Int × ChanId) :=
  m.filter (fun e => decide (e.1 ≠ k))

/-- Map assignment `m[k] = v`. -/
def mapSet (m : List (Int × ChanId)) (k : Int) (v : ChanId) : List (Int × ChanId) :=
  (k, v) :: mapDelete m k

def World.emit (w : World) (e : Event) : World :=
  { w with trace := w.trace ++ [e] }

/-- The builtin `make(chan T)`: a channel no one else holds. -/
def World.makeChan (w : World) : World × ChanId :=
  ({ w with nextChan := w.nextChan + 1 }, w.nextChan)

/-- The builtin `close(ch)`; `none` is the panic on a channel already closed. -/
def World.closeChan (w : World) (ch : ChanId) : Option World :=
  if ch ∈ w.closed then none
  else some { w with closed := ch :: w.closed, trace := w.trace ++ [.closeChan ch] }

/-- The statement `ch <- v`, recorded as `e`; `none` is the panic on a closed
channel. That the send waits for a receiver is not modelled. -/
def World.send (w : World) (ch : ChanId) (e : Event) : Option World :=
  if ch ∈ w.closed then none else some (w.emit e)

/-! ## `restart` (client.go:52-87) -/

/-- Outcome of `websocket.DialConfig`: a connection, or an error with a nil
connection. -/
inductive DialResult
  | ok (ws : Conn)
  | err
  deriving DecidableEq, Repr

/-- The `ws` of the pair `ws, err`. -/
def DialResult.ws : DialResult → Option Conn
  | .ok c => some c
  | .err => none

/-- How one pass through the body of a `for` loop ends. -/
inductive ForCtl
  | exit
  | again
  deriving DecidableEq, Repr

/-- The constant `time.Second`, in nanoseconds. -/
def Second : Nat := 1000000000

/-- The constant `time.Minute`. -/
def Minute : Nat := 60 * Second

def maxSleepTime : Nat := Minute

/-- Lines 74-77: the update of `sleepTime` after a failed dial. -/
def nextSleepTime (sleepTime : Nat) : Nat :=
  if sleepTime < maxSleepTime then 2 * sleepTime else sleepTime

/-- Lines 56-62: close the channel of every entry of the subscription map. The
flag is false when a `close` panicked. -/
def closeSubscriptions : List (Int × ChanId) → World → World × Bool
  | [], w => (w, true)
  | (_, ch) :: rest, w =>
    match w.closeChan ch with
    | none => (w, false)
    | some w1 => closeSubscriptions rest w1

/-- Lines 68-82: one pass through the body of the dial loop. After a failed dial
the code sleeps and updates `sleepTime`; in both cases control then reaches
`p.ws = ws` and `break`. The dial outcome `d` is the one of a dial configured from a
live `p.ws`; the nil dereference of `p.ws.Config()` on a nil connection is not
modelled. -/
def restartIteration (d : DialResult) (sleepTime : Nat) (w : World) : World × Nat × ForCtl :=
  let w1 := w.emit .dial
  let r : World × Nat :=
    match d with
    | .err => (w1.emit (.sleep sleepTime), nextSleepTime sleepTime)
    | .ok _ => (w1, sleepTime)
  ({ r.1 with p := { r.1.p with ws := d.ws } }, r.2, .exit)

/-- Lines 67-83: the `for` loop, against the scripted dial outcomes. The flag is
false when the script ran out before the loop ended. -/
def restartLoop : List DialResult → Nat → World → World × Bool
  | [], _, w => (w, false)
  | d :: ds, sleepTime, w =>
    match restartIteration d sleepTime w with
    | (w1, _, .exit) => (w1, true)
    | (w1, sleepTime1, .again) => restartLoop ds sleepTime1 w1

/-- Method `restart`. -/
def restart (dials : List DialResult) (w : World) : World × Status :=
  match closeSubscriptions w.p.subscriptions w with
  | (w1, false) => (w1, .panicked)
  | (w1, true) =>
    match restartLoop dials Second w1 with
    | (w2, false) => (w2, .starved)
    | (w2, true) => (w2.emit (.goReadingLoop w2.p.ws), .ok)

/-! ## `readingLoop` (client.go:89-153) and `notify` -/

def readBufferSize : Nat := 5 * 1024 * 1024

/-- Outcome of `p.ws.Read`: the bytes it delivers, or an error. -/
inductive ReadResult
  | data (bytes : List Byte)
  | err
  deriving DecidableEq, Repr

/-- The call `p.ws.Read(buff[writePos:])` delivering `bytes`: they are copied to
`buff` from `writePos` on, as many as fit; the result is the buffer and `nR`. -/
def wsRead (buff : List Byte) (writePos : Nat) (bytes : List Byte) : List Byte × Nat :=
  let dst := buff.drop writePos
  let nR := min bytes.length dst.length
  (buff.take writePos ++ bytes.take nR ++ dst.drop nR, nR)

/-- How one pass through the body of the read loop ends: `next` goes on to the
next read, `returned` is the `return` after `p.restart()`, `broke` is the `break`
that falls off the end of the function. -/
inductive LoopCtl
  | next
  | returned
  | broke
  | panicked
  | starved
  deriving DecidableEq, Repr

/-- The state of the read loop after a pass: the world, the locals and how the
pass ended. -/
structure LoopResult where
  w : World
  buff : List Byte
  writePos : Nat
  ctl : LoopCtl
  deriving DecidableEq, Repr

/-- Method `notify` (lines 155-162). -/
def notify (subscription : Int) (w : World) : World × Status :=
  match mapGet w.p.subscriptions subscription with
  | some ch =>
    match w.send ch (.sendSignal ch) with
    | some w1 => (w1, .ok)
    | none => (w, .panicked)
  | none => (w, .ok)

/-- Lines 145-151: hand the response to the channel registered under its id. -/
def dispatchResponse (response : RPCResponse) (w : World) : World × Status :=
  match mapGet w.p.responses response.ID with
  | some ch =>
    match w.send ch (.sendResponse ch response) with
    | some w1 => (w1, .ok)
    | none => (w, .panicked)
  | none => (w, .ok)

def Status.toLoopCtl : Status → LoopCtl → LoopCtl
  | .ok, c => c
  | .panicked, _ => .panicked
  | .starved, _ => .starved

/-- Lines 126-151: after a successful decode of `unmarshalBuff` into `response`. -/
def afterUnmarshal (od : ObjectDecoders) (unmarshalBuff : List Byte) (response : RPCResponse)
    (buff : List Byte) (w : World) : LoopResult :=
  if response.ID = 0 then
    match jsonUnmarshal od.notification zeroNotification unmarshalBuff with
    | .error _ => { w := w, buff := buff, writePos := 0, ctl := .next }
    | .ok notification =>
      let r := notify notification.Params.Subscription w
      { w := r.1, buff := buff, writePos := 0, ctl := r.2.toLoopCtl .next }
  else
    let r := dispatchResponse response w
    { w := r.1, buff := buff, writePos := 0, ctl := r.2.toLoopCtl .next }

/-- Lines 96-151: one pass through the body of the read loop, for the outcome `r`
of the read. The outcome is the one of `Read` on a live `p.ws`; the nil dereference
of `p.ws.Read` on a nil connection is not modelled. -/
def readingLoopIteration (od : ObjectDecoders) (dials : List DialResult) (r : ReadResult)
    (buff : List Byte) (writePos : Nat) (w : World) : LoopResult :=
  match r with
  | .err =>
    let res := restart dials w
    { w := res.1, buff := buff, writePos := writePos, ctl := res.2.toLoopCtl .returned }
  | .data bytes =>
    let rd := wsRead buff writePos bytes
    let unmarshalBuff := rd.1.take (writePos + rd.2)
    match jsonUnmarshal od.response zeroResponse unmarshalBuff with
    | .error (.syntaxErr _) =>
      { w := w, buff := rd.1, writePos := writePos + rd.2, ctl := .next }
    | .error .typeErr => { w := w, buff := rd.1, writePos := writePos, ctl := .broke }
    | .ok response => afterUnmarshal od unmarshalBuff response rd.1 w

/-- The `for` loop of `readingLoop` against the scripted reads; when the script
is used up the loop is waiting in `ws.Read`. -/
def readingLoopFrom (od : ObjectDecoders) (dials : List DialResult) :
    List ReadResult → List Byte → Nat → World → LoopResult
  | [], buff, writePos, w => { w := w, buff := buff, writePos := writePos, ctl := .next }
  | r :: rs, buff, writePos, w =>
    let res := readingLoopIteration od dials r buff writePos w
    match res.ctl with
    | .next => readingLoopFrom od dials rs res.buff res.writePos res.w
    | _ => res

/-- Method `readingLoop`. -/
def readingLoop (od : ObjectDecoders) (dials : List DialResult) (reads : List ReadResult)
    (w : World) : LoopResult :=
  readingLoopFrom od dials reads (List.replicate readBufferSize 0) 0 w

/-! ## Request ids and the request/response handoff (client.go:164-219) -/

/-- The conversion `int(u)` of a `uint64` on a 64-bit platform. -/
def intOfUint64 (u : Nat) : Int :=
  if u < 2 ^ 63 then (u : Int) else (u : Int) - 2 ^ 64

/-- Method `requestID`: `int(atomic.AddUint64(&p.id, 1))`. -/
def requestID (w : World) : World × Int :=
  let n := (w.p.id + 1) % 2 ^ 64
  ({ w with p := { w.p with id := n } }, intOfUint64 n)

/-- Method `registerResponse`. -/
def registerResponse (requestID : Int) (w : World) : World × ChanId :=
  let r := w.makeChan
  ({ r.1 with p := { r.1.p with responses := mapSet r.1.p.responses requestID r.2 } }, r.2)

/-- Method `unregisterResponse`. -/
def unregisterResponse (requestID : Int) (w : World) : World :=
  { w with p := { w.p with responses := mapDelete w.p.responses requestID } }

/-- Outcome of the receive `response, ok := <-ch`. -/
inductive Recv
  | value (response : RPCResponse)
  | closed
  deriving DecidableEq, Repr

/-- The errors `sendRequestWaitResponse` returns. -/
inductive CallError
  | sendFailed
  | closedSubscription
  | assertFailure (responseID requestID : Int)
  | rpc (e : RPCError)
  deriving DecidableEq, Repr

/-- Method `sendRequestWaitResponse`; `sendFails` is the outcome of `sendRequest`
and `recv` what the receive on the registered channel yields. -/
def sendRequestWaitResponse (request : RPCRequest) (sendFails : Bool) (recv : Recv)
    (w : World) : World × Except CallError RPCResponse :=
  let reg := registerResponse request.ID w
  let result : Except CallError RPCResponse :=
    if sendFails then .error .sendFailed
    else
      match recv with
      | .closed => .error .closedSubscription
      | .value response =>
        if response.ID ≠ request.ID then .error (.assertFailure response.ID request.ID)
        else
          match response.Error with
          | some e => .error (.rpc e)
          | none => .ok response
  (unregisterResponse request.ID reg.1, result)

/-- Lines 279-284 of `SubscribePriceSched`: make the sink and record it under the
subscription id the server assigned. -/
def registerSubscription (subscription : Int) (w : World) : World × ChanId :=
  let r := w.makeChan
  ({ r.1 with p := { r.1.p with subscriptions := mapSet r.1.p.subscriptions subscription r.2 } },
    r.2)

/-- Method `SubscribePriceSched`; `decoded` is what `mapstructure.Decode` makes of
the result, `none` when it fails. -/
def SubscribePriceSched (sendFails : Bool) (recv : Recv) (decoded : Option Int) (w : World) :
    World × Option ChanId :=
  let rid := requestID w
  let call := sendRequestWaitResponse { Method := "subscribe_price_sched", ID := rid.2 }
    sendFails recv rid.1
  match call.2 with
  | .error _ => (call.1, none)
  | .ok _ =>
    match decoded with
    | none => (call.1, none)
    | some subscription =>
      let r := registerSubscription subscription call.1
      (r.1, some r.2)

/-- The world right after a successful `NewClient`: empty maps, counter zero, the
read loop started on the dialed connection. -/
def freshWorld (ws : Conn) : World :=
  { p := { ws := some ws, id := 0, responses := [], subscriptions := [] },
    nextChan := 0, closed := [], trace := [.goReadingLoop (some ws)] }

/-- Function `NewClient`: dial, then start the read loop. -/
def NewClient (d : DialResult) : Option World :=
  match d with
  | .err => none
  | .ok ws => some (freshWorld ws)

/-- The sleeps of a trace, in order. -/
def sleeps : List Event → List Nat
  | [] => []
  | .sleep d :: es => d :: sleeps es
  | _ :: es => sleeps es

/-- The number of dial attempts of a trace. -/
def dialCount (t : List Event) : Nat :=
  t.count .dial

/-- A client in mid-operation: requests 1 and 2 are pending on channels 0 and 1,
subscription 77 is live on channel 2. -/
def busyWorld : World :=
  { p := { ws := some 1, id := 2, responses := [(1, 0), (2, 1)], subscriptions := [(77, 2)] },
    nextChan := 3, closed := [], trace := [] }

/-- The bytes of the JSON text of an object with the one member id, value 2. -/
def sampleMessage : List Byte := [123, 34, 105, 100, 34, 58, 50, 125]

/-- A stand-in for the reflective decoding in concrete runs: every object is read
as the response with id 2, and no object is a notification. -/
def sampleDecoders : ObjectDecoders :=
  { response := fun _ => some { zeroResponse with ID := 2 }, notification := fun _ => none }

/-- The response map as `registerResponse` builds it: distinct ids, every id with a
channel of its own, all of them handed out by `make`. -/
def ResponsesOK (w : World) : Prop :=
  (w.p.responses.map Prod.fst).Nodup ∧ (w.p.responses.map Prod.snd).Nodup ∧
    ∀ ch ∈ w.p.responses.map Prod.snd, ch < w.nextChan

/-- A call on the client, for sequences of calls. -/
inductive Call
  | requestID
  | restart (dials : List DialResult)
  deriving DecidableEq, Repr

/-- The ids returned, in order, by a sequence of calls; a `restart` that does not
return ends the sequence. -/
def runCalls : List Call → World → List Int
  | [], _ => []
  | .requestID :: cs, w => (requestID w).2 :: runCalls cs (requestID w).1
  | .restart dials :: cs, w =>
    match restart dials w with
    | (w1, .ok) => runCalls cs w1
    | _ => []

/-! ## Lemmas on the channel runtime and `restart` -/

theorem mapGet_mem {m : List (Int × ChanId)} {k : Int} {ch : ChanId}
    (h : mapGet m k = some ch) : (k, ch) ∈ m := by
  induction m with
  | nil => simp [mapGet] at h
  | cons e rest ih =>
    obtain ⟨k1, v⟩ := e
    by_cases hk : k1 = k
    · simp [mapGet, hk] at h
      simp [hk, h]
    · simp [mapGet, hk] at h
      exact List.mem_cons_of_mem _ (ih h)

theorem mapGet_of_mem {m : List (Int × ChanId)} {k : Int} {ch : ChanId}
    (hkeys : (m.map Prod.fst).Nodup) (h : (k, ch) ∈ m) : mapGet m k = some ch := by
  induction m with
  | nil => simp at h
  | cons e rest ih =>
    obtain ⟨k1, v⟩ := e
    simp only [List.map_cons, List.nodup_cons] at hkeys
    rcases List.mem_cons.mp h with heq | hmem
    · simp only [Prod.mk.injEq] at heq
      simp [mapGet, heq.1, heq.2]
    · have hne : k1 ≠ k := by
        intro hk
        exact hkeys.1 (List.mem_map.mpr ⟨(k, ch), hmem, hk.symm⟩)
      simp only [mapGet, hne, if_false]
      exact ih hkeys.2 hmem

theorem restartLoop_cons (d : DialResult) (ds : List DialResult) (sleepTime : Nat) (w : World) :
    restartLoop (d :: ds) sleepTime w = ((restartIteration d sleepTime w).1, true) := by
  simp [restartLoop, restartIteration]

theorem restartIteration_fields (d : DialResult) (sleepTime : Nat) (w : World) :
    (restartIteration d sleepTime w).1.closed = w.closed ∧
    (restartIteration d sleepTime w).1.nextChan = w.nextChan ∧
    (restartIteration d sleepTime w).1.p.id = w.p.id ∧
    (restartIteration d sleepTime w).1.p.responses = w.p.responses ∧
    (restartIteration d sleepTime w).1.p.subscriptions = w.p.subscriptions ∧
    (restartIteration d sleepTime w).1.p.ws = d.ws := by
  cases d <;> simp [restartIteration, World.emit]

theorem closeSubscriptions_p (subs : List (Int × ChanId)) :
    ∀ w : World, (closeSubscriptions subs w).1.p = w.p := by
  induction subs with
  | nil => intro w; rfl
  | cons e rest ih =>
    intro w
    obtain ⟨k, c⟩ := e
    by_cases hc : c ∈ w.closed
    · simp [closeSubscriptions, World.closeChan, hc]
    · simp only [closeSubscriptions, World.closeChan, hc, if_false]
      rw [ih]

theorem restartLoop_p_id (dials : List DialResult) (sleepTime : Nat) (w : World) :
    (restartLoop dials sleepTime w).1.p.id = w.p.id := by
  cases dials with
  | nil => rfl
  | cons d ds => rw [restartLoop_cons]; exact (restartIteration_fields d sleepTime w).2.2.1

theorem restart_id (dials : List DialResult) (w : World) :
    (restart dials w).1.p.id = w.p.id := by
  have h1 := closeSubscriptions_p w.p.subscriptions w
  unfold restart
  rcases hcs : closeSubscriptions w.p.subscriptions w with ⟨w1, b⟩
  rw [hcs] at h1
  simp only at h1
  cases b with
  | false => simp [h1]
  | true =>
    have h2 := restartLoop_p_id dials Second w1
    dsimp only
    rcases hrl : restartLoop dials Second w1 with ⟨w2, b2⟩
    rw [hrl] at h2
    simp only at h2
    cases b2 <;> simp [World.emit, h2, h1]

/-! ## Dispatch of responses -/

/-- C1. No cross-delivery: with distinct registered ids (each with its own channel),
the dispatch step of the read loop hands a decoded response with non-zero id only
to the channel registered under that id, and to no channel registered under a
different id; and a response that `sendRequestWaitResponse` returns with a nil
error is the one received, carries the id of the request and has a nil `Error`. -/
theorem no_cross_delivery (od : ObjectDecoders) (unmarshalBuff buff : List Byte) (w : World)
    (response : RPCResponse)
    (hids : (w.p.responses.map Prod.fst).Nodup)
    (hslots : (w.p.responses.map Prod.snd).Nodup)
    (hr : response.ID ≠ 0) :
    (∃ evs, (afterUnmarshal od unmarshalBuff response buff w).w.trace = w.trace ++ evs ∧
      (∀ e ∈ evs, ∃ ch, (response.ID, ch) ∈ w.p.responses ∧ e = .sendResponse ch response) ∧
      (∀ i ch r, (i, ch) ∈ w.p.responses → i ≠ response.ID → Event.sendResponse ch r ∉ evs) ∧
      (∀ ch, (response.ID, ch) ∈ w.p.responses → ch ∉ w.closed →
        evs = [.sendResponse ch response])) ∧
    (∀ (request : RPCRequest) (sendFails : Bool) (recv : Recv) (out : RPCResponse),
      (sendRequestWaitResponse request sendFails recv w).2 = .ok out →
        recv = .value out ∧ out.ID = request.ID ∧ out.Error = none) := by
  constructor
  · simp only [afterUnmarshal, hr, if_false, dispatchResponse]
    cases hget : mapGet w.p.responses response.ID with
    | none =>
      refine ⟨[], by simp, by simp, by simp, ?_⟩
      intro ch hmem _
      rw [mapGet_of_mem hids hmem] at hget
      cases hget
    | some ch0 =>
      have hmem0 := mapGet_mem hget
      by_cases hcl : ch0 ∈ w.closed
      · refine ⟨[], by simp [World.send, hcl], by simp, by simp, ?_⟩
        intro ch hmem hopen
        have := mapGet_of_mem hids hmem
        rw [hget] at this
        cases this
        exact absurd hcl hopen
      · refine ⟨[.sendResponse ch0 response], by simp [World.send, hcl, World.emit], ?_, ?_, ?_⟩
        · intro e he
          exact ⟨ch0, hmem0, by simpa using he⟩
        · intro i ch r hmem hne hin
          simp only [List.mem_singleton, Event.sendResponse.injEq] at hin
          obtain ⟨rfl, -⟩ := hin
          have hinj := List.inj_on_of_nodup_map hslots hmem hmem0 rfl
          simp only [Prod.mk.injEq] at hinj
          exact hne hinj.1
        · intro ch hmem _
          have := mapGet_of_mem hids hmem
          rw [hget] at this
          cases this
          rfl
  · intro request sendFails recv out h
    simp only [sendRequestWaitResponse] at h
    cases sendFails with
    | true => simp at h
    | false =>
      cases recv with
      | closed => simp at h
      | value response =>
        by_cases hid : response.ID = request.ID
        · cases herr : response.Error with
          | some e => simp [hid, herr] at h
          | none =>
            simp [hid, herr] at h
            subst h
            exact ⟨rfl, hid, herr⟩
        · simp [hid] at h

/-- C1 at a concrete input: the response with id 2 goes to channel 1, the one
registered under id 2, and nowhere else. -/
theorem no_cross_delivery_witness :
    ∃ evs, (afterUnmarshal ⟨fun _ => none, fun _ => none⟩ [] { zeroResponse with ID := 2 } []
        busyWorld).w.trace = busyWorld.trace ++ evs ∧
      evs = [.sendResponse 1 { zeroResponse with ID := 2 }] :=
  have h := (no_cross_delivery ⟨fun _ => none, fun _ => none⟩ [] [] busyWorld
    { zeroResponse with ID := 2 } (by decide) (by decide) (by decide)).1
  h.elim fun evs hevs => ⟨evs, hevs.1, hevs.2.2.2 1 (by decide) (by decide)⟩

/-! ## `restart`: what it closes, how often it dials -/

/-- C4 (the code at the failing input): `restart` on a client with requests 1 and 2
pending on channels 0 and 1 and subscription 77 on channel 2 returns having closed
channel 2 only; the channels of the pending requests are neither closed nor sent
to, and the response map is as before. -/
theorem restart_leaves_pending_requests_blocked :
    restart [.ok 9] busyWorld =
      ({ p := { ws := some 9, id := 2, responses := [(1, 0), (2, 1)],
                subscriptions := [(77, 2)] },
         nextChan := 3, closed := [2],
         trace := [.closeChan 2, .dial, .goReadingLoop (some 9)] }, .ok) := by
  decide

/-- C5 (the code at the failing input): subscription 77 is live on channel 2 when
`restart` runs with a successful dial. `restart` returns having closed the sink, but
the subscription map still holds the entry for 77, so the lookup of a later
`notify` for that id finds the closed sink and the send on it panics. -/
theorem restart_keeps_subscription_map :
    (restart [.ok 9] busyWorld).2 = .ok ∧
    2 ∈ (restart [.ok 9] busyWorld).1.closed ∧
    (restart [.ok 9] busyWorld).1.p.subscriptions = [(77, 2)] ∧
    mapGet (restart [.ok 9] busyWorld).1.p.subscriptions 77 = some 2 ∧
    (notify 77 (restart [.ok 9] busyWorld).1).2 = .panicked := by
  decide

/-- C6 (the code at the failing input): when the dial outcomes are one or more
failures followed by a success, `restart` dials once, sleeps one second, installs
the nil connection of the failed dial and starts the read loop on it. -/
theorem restart_installs_failed_dial (n : Nat) (ws0 c : Conn) :
    restart (List.replicate (n + 1) .err ++ [.ok c]) (freshWorld ws0) =
      ({ freshWorld ws0 with
          p := { (freshWorld ws0).p with ws := none },
          trace := (freshWorld ws0).trace ++ [.dial, .sleep Second, .goReadingLoop none] },
        .ok) := by
  simp [List.replicate_succ, restart, freshWorld, closeSubscriptions, restartLoop,
    restartIteration, World.emit, DialResult.ws]

/-- C7 (the code at the failing input): however many dials fail in a row, `restart`
sleeps once, for one second, and returns; and the update of `sleepTime`, were it
repeated, would go from 32 s to 64 s, above the 60 s of `maxSleepTime`. -/
theorem restart_sleeps_once (n : Nat) (ws0 : Conn) :
    (restart (List.replicate (n + 1) .err) (freshWorld ws0)).2 = .ok ∧
    sleeps (restart (List.replicate (n + 1) .err) (freshWorld ws0)).1.trace = [Second] ∧
    dialCount (restart (List.replicate (n + 1) .err) (freshWorld ws0)).1.trace = 1 ∧
    nextSleepTime (32 * Second) = 64 * Second ∧ maxSleepTime < 64 * Second := by
  refine ⟨?_, ?_, ?_, by decide, by decide⟩ <;>
  simp [List.replicate_succ, restart, freshWorld, closeSubscriptions, restartLoop,
    restartIteration, World.emit, DialResult.ws, sleeps, dialCount]

/-- C10 (the code at the failing input): a fresh client subscribes (request id 1,
subscription 77 on channel 1), the connection is reset and redialed, and reset
again. The first `restart` returns and closes the sink; the second `restart` closes
the same sink again and panics. -/
theorem second_restart_closes_again :
    (SubscribePriceSched false (.value { zeroResponse with ID := 1 }) (some 77)
      (freshWorld 1)).1.p.subscriptions = [(77, 1)] ∧
    (restart [.ok 2] (SubscribePriceSched false (.value { zeroResponse with ID := 1 })
      (some 77) (freshWorld 1)).1).2 = .ok ∧
    (restart [.ok 2] (SubscribePriceSched false (.value { zeroResponse with ID := 1 })
      (some 77) (freshWorld 1)).1).1.closed = [1] ∧
    (restart [.ok 3] (restart [.ok 2] (SubscribePriceSched false
      (.value { zeroResponse with ID := 1 }) (some 77) (freshWorld 1)).1).1).2 = .panicked := by
  decide

/-! ## The read loop: reassembly across reads -/

theorem readingLoopFrom_single (od : ObjectDecoders) (dials : List DialResult) (r : ReadResult)
    (buff : List Byte) (writePos : Nat) (w : World) :
    readingLoopFrom od dials [r] buff writePos w =
      readingLoopIteration od dials r buff writePos w := by
  simp only [readingLoopFrom]
  cases h : (readingLoopIteration od dials r buff writePos w).ctl <;> simp only []
  rcases hres : readingLoopIteration od dials r buff writePos w with ⟨w1, b1, p1, c1⟩
  rw [hres] at h
  simp only at h
  subst h
  rfl

theorem readingLoopFrom_append (od : ObjectDecoders) (dials : List DialResult)
    (xs ys : List ReadResult) :
    ∀ (buff : List Byte) (writePos : Nat) (w : World),
      (readingLoopFrom od dials xs buff writePos w).ctl = .next →
      readingLoopFrom od dials (xs ++ ys) buff writePos w =
        readingLoopFrom od dials ys (readingLoopFrom od dials xs buff writePos w).buff
          (readingLoopFrom od dials xs buff writePos w).writePos
          (readingLoopFrom od dials xs buff writePos w).w := by
  induction xs with
  | nil => intro buff writePos w _; rfl
  | cons r rs ih =>
    intro buff writePos w h
    simp only [List.cons_append, readingLoopFrom] at h ⊢
    cases hc : (readingLoopIteration od dials r buff writePos w).ctl with
    | next =>
      rw [hc] at h
      simp only at h ⊢
      exact ih _ _ _ h
    | returned => rw [hc] at h; simp only at h; rw [hc] at h; cases h
    | broke => rw [hc] at h; simp only at h; rw [hc] at h; cases h
    | panicked => rw [hc] at h; simp only at h; rw [hc] at h; cases h
    | starved => rw [hc] at h; simp only at h; rw [hc] at h; cases h

/-- A read that fits: the bytes land right after the accumulated prefix. -/
theorem wsRead_after_prefix (acc bytes buff : List Byte)
    (hfit : acc.length + bytes.length ≤ buff.length) :
    wsRead (acc ++ buff.drop acc.length) acc.length bytes =
      ((acc ++ bytes) ++ buff.drop (acc ++ bytes).length, bytes.length) := by
  have h1 : (acc ++ buff.drop acc.length).drop acc.length = buff.drop acc.length := by
    simp
  have h2 : (acc ++ buff.drop acc.length).take acc.length = acc := by
    simp
  have h3 : min bytes.length (buff.drop acc.length).length = bytes.length := by
    rw [List.length_drop]; omega
  simp only [wsRead, h1, h2, h3, List.take_length, List.drop_drop, List.length_append]

/-- The bytes handed to `json.Unmarshal` after such a read are the accumulated ones. -/
theorem unmarshalBuff_after_prefix (acc bytes rest : List Byte) :
    (acc ++ bytes ++ rest).take (acc.length + bytes.length) = acc ++ bytes := by
  have h : acc.length + bytes.length = (acc ++ bytes).length := by simp
  rw [h]
  exact List.take_left' rfl

/-- A read after which the accumulated bytes fail with a syntax error: nothing is
dispatched, the bytes stay and the write position moves past them. -/
theorem readingLoopIteration_incomplete (od : ObjectDecoders) (dials : List DialResult)
    (acc bytes buff : List Byte) (w : World) (e : SyntaxError)
    (hfit : acc.length + bytes.length ≤ buff.length)
    (herr : jsonUnmarshal od.response zeroResponse (acc ++ bytes) = .error (.syntaxErr e)) :
    readingLoopIteration od dials (.data bytes) (acc ++ buff.drop acc.length) acc.length w =
      { w := w, buff := (acc ++ bytes) ++ buff.drop (acc ++ bytes).length,
        writePos := (acc ++ bytes).length, ctl := .next } := by
  simp only [readingLoopIteration, wsRead_after_prefix acc bytes buff hfit,
    unmarshalBuff_after_prefix, herr, List.length_append]

/-- A read after which the accumulated bytes decode: the rest of the pass runs on
exactly these bytes. -/
theorem readingLoopIteration_complete (od : ObjectDecoders) (dials : List DialResult)
    (acc bytes buff : List Byte) (w : World) (response : RPCResponse)
    (hfit : acc.length + bytes.length ≤ buff.length)
    (hok : jsonUnmarshal od.response zeroResponse (acc ++ bytes) = .ok response) :
    readingLoopIteration od dials (.data bytes) (acc ++ buff.drop acc.length) acc.length w =
      afterUnmarshal od (acc ++ bytes) response
        ((acc ++ bytes) ++ buff.drop (acc ++ bytes).length) w := by
  simp only [readingLoopIteration, wsRead_after_prefix acc bytes buff hfit,
    unmarshalBuff_after_prefix, hok]

theorem afterUnmarshal_writePos (od : ObjectDecoders) (unmarshalBuff buff : List Byte)
    (response : RPCResponse) (w : World) :
    (afterUnmarshal od unmarshalBuff response buff w).writePos = 0 := by
  unfold afterUnmarshal
  split
  · split <;> rfl
  · rfl

/-- Chunks whose concatenation stays a proper prefix of the message are accumulated
without any dispatch. -/
theorem readingLoopFrom_accumulates (od : ObjectDecoders) (dials : List DialResult)
    (m buff : List Byte) (w : World)
    (hpre : ∀ n, n < m.length → 0 < n →
      ∃ e, jsonUnmarshal od.response zeroResponse (m.take n) = .error (.syntaxErr e))
    (hcap : m.length ≤ buff.length) :
    ∀ (cs : List (List Byte)) (acc : List Byte), (∀ c ∈ cs, c ≠ []) →
      (acc ++ cs.flatten) <+: m → (acc ++ cs.flatten).length < m.length →
      readingLoopFrom od dials (cs.map .data) (acc ++ buff.drop acc.length) acc.length w =
        { w := w, buff := (acc ++ cs.flatten) ++ buff.drop (acc ++ cs.flatten).length,
          writePos := (acc ++ cs.flatten).length, ctl := .next } := by
  intro cs
  induction cs with
  | nil => intro acc _ _ _; simp [readingLoopFrom]
  | cons c rest ih =>
    intro acc hne hpfx hlt
    have hc : c ≠ [] := hne c (by simp)
    have hclen : 0 < c.length := List.length_pos.mpr hc
    simp only [List.flatten_cons, ← List.append_assoc] at hpfx hlt ⊢
    have hpfx1 : (acc ++ c) <+: m := (List.prefix_append _ _).trans hpfx
    have hlen1 : (acc ++ c).length ≤ (acc ++ c ++ rest.flatten).length := by
      simp [List.length_append]
    have htake : m.take (acc ++ c).length = acc ++ c := (List.prefix_iff_eq_take.mp hpfx1).symm
    obtain ⟨e, he⟩ := hpre (acc ++ c).length (by omega) (by simp [List.length_append]; omega)
    rw [htake] at he
    have hfit : acc.length + c.length ≤ buff.length := by
      have := List.length_append acc c
      omega
    simp only [List.map_cons, readingLoopFrom,
      readingLoopIteration_incomplete od dials acc c buff w e hfit he]
    exact ih (acc ++ c) (fun x hx => hne x (List.mem_cons_of_mem _ hx)) hpfx hlt
theorem flatten_length_pos {cs : List (List Byte)} (hcs : cs ≠ []) (hne : ∀ c ∈ cs, c ≠ []) :
    0 < cs.flatten.length := by
  obtain ⟨c, rest, rfl⟩ := List.exists_cons_of_ne_nil hcs
  have hc : 0 < c.length := List.length_pos.mpr (hne c (by simp))
  simp only [List.flatten_cons, List.length_append]
  omega

/-- Chunks that complete the message: every read but the last accumulates, the
last one decodes the whole message. -/
theorem readingLoopFrom_completes (od : ObjectDecoders) (dials : List DialResult)
    (m buff : List Byte) (w : World) (response : RPCResponse)
    (hok : jsonUnmarshal od.response zeroResponse m = .ok response)
    (hpre : ∀ n, n < m.length → 0 < n →
      ∃ e, jsonUnmarshal od.response zeroResponse (m.take n) = .error (.syntaxErr e))
    (hcap : m.length ≤ buff.length) :
    ∀ (cs : List (List Byte)) (acc : List Byte), cs ≠ [] → (∀ c ∈ cs, c ≠ []) →
      acc ++ cs.flatten = m →
      readingLoopFrom od dials (cs.map .data) (acc ++ buff.drop acc.length) acc.length w =
        afterUnmarshal od m response (m ++ buff.drop m.length) w := by
  intro cs
  induction cs with
  | nil => intro acc h; exact absurd rfl h
  | cons c rest ih =>
    intro acc _ hne hsplit
    have hc : c ≠ [] := hne c (by simp)
    have hclen : 0 < c.length := List.length_pos.mpr hc
    have hrne : ∀ x ∈ rest, x ≠ [] := fun x hx => hne x (List.mem_cons_of_mem _ hx)
    simp only [List.flatten_cons, ← List.append_assoc] at hsplit
    have hlen : (acc ++ c).length + rest.flatten.length = m.length := by
      rw [← hsplit, List.length_append (acc ++ c)]
    have hfit : acc.length + c.length ≤ buff.length := by
      have := List.length_append acc c
      omega
    by_cases hrest : rest = []
    · subst hrest
      simp only [List.flatten_nil, List.append_nil] at hsplit
      rw [← hsplit] at hok
      simp only [List.map_cons, List.map_nil, readingLoopFrom_single,
        readingLoopIteration_complete od dials acc c buff w response hfit hok, hsplit]
    · have hpos := flatten_length_pos hrest hrne
      have hpfx1 : (acc ++ c) <+: m := ⟨rest.flatten, hsplit⟩
      have htake : m.take (acc ++ c).length = acc ++ c :=
        (List.prefix_iff_eq_take.mp hpfx1).symm
      obtain ⟨e, he⟩ := hpre (acc ++ c).length (by omega)
        (by simp only [List.length_append]; omega)
      rw [htake] at he
      simp only [List.map_cons, readingLoopFrom,
        readingLoopIteration_incomplete od dials acc c buff w e hfit he]
      exact ih (acc ++ c) hrest hrne hsplit

/-- C2. Chunked reassembly: a message that decodes, none of whose proper non-empty
prefixes gets past a syntax error, and that fits the buffer, is delivered in
`k ≥ 1` non-empty chunks from an empty buffer. After each of the first `k - 1`
reads nothing has been dispatched and the chunks so far sit at the start of the
buffer; the `k`-th read decodes exactly the bytes of the message; the loop ends in
the state a single read of the whole message leads to, with `writePos = 0`. -/
theorem chunked_reassembly (od : ObjectDecoders) (dials : List DialResult) (w : World)
    (buff m : List Byte) (chunks : List (List Byte)) (response : RPCResponse)
    (hok : jsonUnmarshal od.response zeroResponse m = .ok response)
    (hpre : ∀ n, n < m.length → 0 < n →
      ∃ e, jsonUnmarshal od.response zeroResponse (m.take n) = .error (.syntaxErr e))
    (hcap : m.length ≤ buff.length)
    (hk : chunks ≠ [])
    (hne : ∀ c ∈ chunks, c ≠ [])
    (hsplit : chunks.flatten = m) :
    (∀ j, j < chunks.length →
      readingLoopFrom od dials ((chunks.take j).map .data) buff 0 w =
        { w := w, buff := (chunks.take j).flatten ++ buff.drop (chunks.take j).flatten.length,
          writePos := (chunks.take j).flatten.length, ctl := .next }) ∧
    readingLoopFrom od dials (chunks.map .data) buff 0 w =
      afterUnmarshal od m response (m ++ buff.drop m.length) w ∧
    readingLoopFrom od dials (chunks.map .data) buff 0 w =
      readingLoopFrom od dials [.data m] buff 0 w ∧
    (readingLoopFrom od dials (chunks.map .data) buff 0 w).writePos = 0 := by
  have hmpos : 0 < m.length := hsplit ▸ flatten_length_pos hk hne
  have hmne : m ≠ [] := List.length_pos.mp hmpos
  have hall := readingLoopFrom_completes od dials m buff w response hok hpre hcap chunks []
    hk hne (by simpa using hsplit)
  have hone := readingLoopFrom_completes od dials m buff w response hok hpre hcap [m] []
    (by simp) (by simpa using hmne) (by simp)
  simp only [List.nil_append, List.length_nil, List.drop_zero] at hall hone
  refine ⟨?_, hall, ?_, ?_⟩
  · intro j hj
    have hdrop : chunks.drop j ≠ [] := by
      intro h
      have := congrArg List.length h
      simp only [List.length_drop, List.length_nil] at this
      omega
    have hpos := flatten_length_pos hdrop (fun c hc => hne c (List.mem_of_mem_drop hc))
    have hcat : (chunks.take j).flatten ++ (chunks.drop j).flatten = m := by
      rw [← List.flatten_append, List.take_append_drop, hsplit]
    have hlen : (chunks.take j).flatten.length + (chunks.drop j).flatten.length = m.length := by
      rw [← hcat, List.length_append]
    have hacc := readingLoopFrom_accumulates od dials m buff w hpre hcap (chunks.take j) []
      (fun c hc => hne c (List.mem_of_mem_take hc))
      (by simpa using ⟨(chunks.drop j).flatten, hcat⟩) (by simp only [List.nil_append]; omega)
    simpa using hacc
  · rw [hall]
    simpa using hone.symm
  · rw [hall]
    exact afterUnmarshal_writePos od m (m ++ buff.drop m.length) response w
/-- C2 at a concrete input: the eight bytes of the sample message arrive as three
bytes and then five; nothing is dispatched after the first read, and after the
second the response is handed to the channel registered under id 2, as a single
read would have done. -/
theorem chunked_reassembly_witness :
    readingLoopFrom sampleDecoders [] [.data [123, 34, 105]] (List.replicate 16 0) 0 busyWorld =
      { w := busyWorld, buff := [123, 34, 105] ++ List.replicate 13 0, writePos := 3,
        ctl := .next } ∧
    readingLoopFrom sampleDecoders [] [.data [123, 34, 105], .data [100, 34, 58, 50, 125]]
        (List.replicate 16 0) 0 busyWorld =
      readingLoopFrom sampleDecoders [] [.data sampleMessage] (List.replicate 16 0) 0 busyWorld ∧
    (readingLoopFrom sampleDecoders [] [.data [123, 34, 105], .data [100, 34, 58, 50, 125]]
        (List.replicate 16 0) 0 busyWorld).w.trace =
      [.sendResponse 1 { zeroResponse with ID := 2 }] :=
  have h := chunked_reassembly sampleDecoders [] busyWorld (List.replicate 16 0) sampleMessage
    [[123, 34, 105], [100, 34, 58, 50, 125]] { zeroResponse with ID := 2 }
    rfl
    (by
      intro n hn hpos
      have hn8 : n < 8 := hn
      interval_cases n <;> exact ⟨_, rfl⟩)
    (by decide) (by decide) (by decide) (by decide)
  ⟨h.1 1 (by decide), h.2.2.1, by decide⟩

/-! ## The read loop: the two classes of decode failure -/

theorem jsonUnmarshal_syntaxErr_iff {α : Type} (decodeObject : List Byte → Option α) (zero : α)
    (data : List Byte) :
    (∃ e, jsonUnmarshal decodeObject zero data = .error (.syntaxErr e)) ↔
      checkValid data ≠ none := by
  unfold jsonUnmarshal
  cases hv : checkValid data with
  | some e => simp
  | none =>
    simp only [ne_eq, not_true_eq_false, iff_false, not_exists]
    intro e
    cases (data.dropWhile isSpace).head? with
    | none => simp
    | some c =>
      simp only
      split
      · cases decodeObject data <;> simp
      · split <;> simp

/-- A first read whose bytes are valid JSON of the wrong kind ends the loop. -/
theorem readingLoopIteration_typeErr (od : ObjectDecoders) (dials : List DialResult)
    (bytes buff : List Byte) (w : World) (hfit : bytes.length ≤ buff.length)
    (herr : jsonUnmarshal od.response zeroResponse bytes = .error .typeErr) :
    readingLoopIteration od dials (.data bytes) buff 0 w =
      { w := w, buff := bytes ++ buff.drop bytes.length, writePos := 0, ctl := .broke } := by
  have h1 := wsRead_after_prefix [] bytes buff (by simpa using hfit)
  have h2 := unmarshalBuff_after_prefix [] bytes (buff.drop bytes.length)
  simp only [List.nil_append, List.length_nil, List.drop_zero, Nat.zero_add] at h1 h2
  simp only [readingLoopIteration, h1, Nat.zero_add, h2, herr]

/-- A first read after which the bytes read fail with a syntax error. -/
theorem readingLoopIteration_syntaxErr_first (od : ObjectDecoders) (dials : List DialResult)
    (bytes buff : List Byte) (w : World) (e : SyntaxError) (hfit : bytes.length ≤ buff.length)
    (herr : jsonUnmarshal od.response zeroResponse bytes = .error (.syntaxErr e)) :
    readingLoopIteration od dials (.data bytes) buff 0 w =
      { w := w, buff := bytes ++ buff.drop bytes.length, writePos := bytes.length,
        ctl := .next } := by
  have h1 := wsRead_after_prefix [] bytes buff (by simpa using hfit)
  have h2 := unmarshalBuff_after_prefix [] bytes (buff.drop bytes.length)
  simp only [List.nil_append, List.length_nil, List.drop_zero, Nat.zero_add] at h1 h2
  simp only [readingLoopIteration, h1, Nat.zero_add, h2, herr]

theorem readingLoopIteration_closing_brace (od : ObjectDecoders) (dials : List DialResult)
    (w : World) :
    readingLoopIteration od dials (.data [125]) (List.replicate readBufferSize 0) 0 w =
      { w := w, buff := [125] ++ (List.replicate readBufferSize 0).drop 1, writePos := 1,
        ctl := .next } :=
  readingLoopIteration_syntaxErr_first od dials [125] (List.replicate readBufferSize 0) w ⟨1⟩
    (by rw [List.length_replicate]; unfold readBufferSize; norm_num) rfl

/-- C3 (counterexample): a buffer that begins with a closing brace is a syntax error
whatever bytes follow, so no continuation makes it valid; yet when the first read
delivers that byte the read loop keeps it, moves `writePos` to 1, dispatches nothing
and waits for the next read. -/
theorem malformed_bytes_are_accumulated :
    (∀ (od : ObjectDecoders) (ext : List Byte),
      jsonUnmarshal od.response zeroResponse (125 :: ext) = .error (.syntaxErr ⟨1⟩)) ∧
    (∀ (od : ObjectDecoders) (dials : List DialResult) (w : World),
      readingLoop od dials [.data [125]] w =
        { w := w, buff := [125] ++ (List.replicate readBufferSize 0).drop 1, writePos := 1,
          ctl := .next }) := by
  constructor
  · intro od ext
    rfl
  · intro od dials w
    unfold readingLoop
    rw [readingLoopFrom_single]
    exact readingLoopIteration_closing_brace od dials w

/-- C3 (amended): the read loop tells decode failures apart by the type of the error
only. When `json.Unmarshal` of the accumulated bytes fails with a syntax error, which
is the case exactly when the bytes are not one valid JSON value (a truncated prefix
and bytes beyond repair alike), the loop keeps the bytes, advances `writePos` by the
bytes read and goes on to the next read without dispatching; when it fails with any
other error, the loop is left by `break` and nothing more is accumulated. -/
theorem decode_failure_classes (od : ObjectDecoders) (dials : List DialResult)
    (bytes buff : List Byte) (writePos : Nat) (w : World) :
    (∀ e, jsonUnmarshal od.response zeroResponse
        ((wsRead buff writePos bytes).1.take (writePos + (wsRead buff writePos bytes).2)) =
          .error (.syntaxErr e) →
      readingLoopIteration od dials (.data bytes) buff writePos w =
        { w := w, buff := (wsRead buff writePos bytes).1,
          writePos := writePos + (wsRead buff writePos bytes).2, ctl := .next }) ∧
    (jsonUnmarshal od.response zeroResponse
        ((wsRead buff writePos bytes).1.take (writePos + (wsRead buff writePos bytes).2)) =
          .error .typeErr →
      readingLoopIteration od dials (.data bytes) buff writePos w =
        { w := w, buff := (wsRead buff writePos bytes).1, writePos := writePos,
          ctl := .broke }) ∧
    (∀ data, (∃ e, jsonUnmarshal od.response zeroResponse data = .error (.syntaxErr e)) ↔
      checkValid data ≠ none) := by
  refine ⟨?_, ?_, fun data => jsonUnmarshal_syntaxErr_iff _ _ data⟩
  · intro e he
    simp only [readingLoopIteration, he]
  · intro he
    simp only [readingLoopIteration, he]

/-- C3 (amended) at concrete inputs: the first three bytes of an object are kept and
waited on; an empty array ends the loop. -/
theorem decode_failure_classes_witness :
    readingLoopIteration sampleDecoders [] (.data [123, 34, 105]) (List.replicate 8 0) 0
        busyWorld =
      { w := busyWorld, buff := [123, 34, 105, 0, 0, 0, 0, 0], writePos := 3, ctl := .next } ∧
    readingLoopIteration sampleDecoders [] (.data [91, 93]) (List.replicate 8 0) 0 busyWorld =
      { w := busyWorld, buff := [91, 93, 0, 0, 0, 0, 0, 0], writePos := 0, ctl := .broke } :=
  ⟨(decode_failure_classes sampleDecoders [] [123, 34, 105] (List.replicate 8 0) 0
      busyWorld).1 ⟨3⟩ rfl,
   (decode_failure_classes sampleDecoders [] [91, 93] (List.replicate 8 0) 0
      busyWorld).2.1 rfl⟩

/-! ## The read loop: how it ends -/

theorem readingLoopIteration_empty_array (od : ObjectDecoders) (dials : List DialResult)
    (w : World) :
    readingLoopIteration od dials (.data [91, 93]) (List.replicate readBufferSize 0) 0 w =
      { w := w, buff := [91, 93] ++ (List.replicate readBufferSize 0).drop 2, writePos := 0,
        ctl := .broke } :=
  readingLoopIteration_typeErr od dials [91, 93] (List.replicate readBufferSize 0) w
    (by rw [List.length_replicate]; unfold readBufferSize; norm_num) rfl

/-- C8 (the code at the failing input): the first read delivers the two bytes of an
empty JSON array, which `json.Unmarshal` rejects with an error that is not a syntax
error. The read loop is left by `break`: the world is untouched, so nothing was
dialed and no new read loop was started, whereas a failed read ends in the state
`restart` leaves. -/
theorem readingLoop_ends_without_restart (od : ObjectDecoders) (dials : List DialResult)
    (reads : List ReadResult) (w : World) :
    (readingLoop od dials (.data [91, 93] :: reads) w).ctl = .broke ∧
    (readingLoop od dials (.data [91, 93] :: reads) w).w = w ∧
    (readingLoop od dials (.err :: reads) w).w = (restart dials w).1 := by
  have h := readingLoopIteration_empty_array od dials w
  refine ⟨?_, ?_, ?_⟩
  · unfold readingLoop
    rw [readingLoopFrom, h]
  · unfold readingLoop
    rw [readingLoopFrom, h]
  · simp only [readingLoop, readingLoopFrom, readingLoopIteration]
    cases (restart dials w).2 <;> rfl

/-! ## Request ids -/

theorem intOfUint64_of_lt {n : Nat} (h : n < 2 ^ 63) : intOfUint64 n = (n : Int) := by
  unfold intOfUint64
  rw [if_pos h]

theorem requestID_of_lt (v : World) (h : v.p.id + 1 < 2 ^ 63) :
    (requestID v).1.p.id = v.p.id + 1 ∧ (requestID v).2 = (v.p.id : Int) + 1 := by
  have hmod : (v.p.id + 1) % 2 ^ 64 = v.p.id + 1 := Nat.mod_eq_of_lt (by omega)
  unfold requestID
  refine ⟨hmod, ?_⟩
  show intOfUint64 ((v.p.id + 1) % 2 ^ 64) = (v.p.id : Int) + 1
  rw [hmod, intOfUint64_of_lt h]
  push_cast
  rfl

theorem runCalls_gt (calls : List Call) :
    ∀ w : World, w.p.id + calls.count .requestID < 2 ^ 63 →
      ∀ i ∈ runCalls calls w, (w.p.id : Int) < i := by
  induction calls with
  | nil => intro w _ i hi; simp [runCalls] at hi
  | cons c cs ih =>
    intro w hb i hi
    cases c with
    | requestID =>
      simp only [List.count_cons_self] at hb
      have hr := requestID_of_lt w (by omega)
      simp only [runCalls, List.mem_cons] at hi
      rcases hi with rfl | hi
      · rw [hr.2]; omega
      · have := ih (requestID w).1 (by rw [hr.1]; omega) i hi
        rw [hr.1] at this
        push_cast at this
        omega
    | restart dials =>
      have hb2 : w.p.id + cs.count .requestID < 2 ^ 63 := by
        simpa [List.count_cons] using hb
      simp only [runCalls] at hi
      rcases hres : restart dials w with ⟨w1, st⟩
      have hid := restart_id dials w
      rw [hres] at hi hid
      simp only at hid
      cases st with
      | ok =>
        simp only at hi
        have := ih w1 (by rw [hid]; exact hb2) i hi
        rw [hid] at this
        exact this
      | panicked => simp at hi
      | starved => simp at hi

theorem runCalls_pairwise (calls : List Call) :
    ∀ w : World, w.p.id + calls.count .requestID < 2 ^ 63 →
      (runCalls calls w).Pairwise (· < ·) := by
  induction calls with
  | nil => intro w _; simp [runCalls]
  | cons c cs ih =>
    intro w hb
    cases c with
    | requestID =>
      simp only [List.count_cons_self] at hb
      have hr := requestID_of_lt w (by omega)
      simp only [runCalls, List.pairwise_cons]
      refine ⟨?_, ih _ (by rw [hr.1]; omega)⟩
      intro i hi
      have := runCalls_gt cs (requestID w).1 (by rw [hr.1]; omega) i hi
      rw [hr.1] at this
      rw [hr.2]
      push_cast at this
      exact this
    | restart dials =>
      have hb2 : w.p.id + cs.count .requestID < 2 ^ 63 := by
        simpa [List.count_cons] using hb
      simp only [runCalls]
      rcases hres : restart dials w with ⟨w1, st⟩
      have hid := restart_id dials w
      rw [hres] at hid
      simp only at hid
      cases st with
      | ok => exact ih w1 (by rw [hid]; exact hb2)
      | panicked => simp
      | starved => simp

theorem runCalls_replicate (n : Nat) :
    ∀ w : World, runCalls (List.replicate n .requestID) w =
      (List.range n).map (fun k => intOfUint64 ((w.p.id + k + 1) % 2 ^ 64)) := by
  induction n with
  | zero => intro w; rfl
  | succ n ih =>
    intro w
    rw [List.replicate_succ, runCalls, ih, List.range_succ_eq_map, List.map_cons, List.map_map]
    congr 1
    apply List.map_congr_left
    intro k _
    simp only [requestID, Function.comp]
    congr 1
    omega

/-- C9 (counterexample): a fresh client issues `2 ^ 63` ids in a row. The first is 1;
the last is the counter value `2 ^ 63` converted to `int`, which is `-2 ^ 63` and so
smaller than every id issued before it. -/
theorem request_ids_wrap :
    (runCalls (List.replicate (2 ^ 63) .requestID) (freshWorld 1)).head? = some 1 ∧
    (runCalls (List.replicate (2 ^ 63) .requestID) (freshWorld 1)).getLast? =
      some (-(2 ^ 63)) := by
  have hn : (2 : Nat) ^ 63 = 9223372036854775807 + 1 := by norm_num
  rw [runCalls_replicate, hn]
  constructor
  · rw [List.range_succ_eq_map]
    rfl
  · rw [List.range_succ, List.map_append, List.map_singleton, List.getLast?_append_cons,
      List.getLast?_singleton]
    rfl

/-- C9 (amended): `requestID` adds one to the 64-bit counter and returns the new
value as an `int`, so the first id of a fresh client is 1; `restart` leaves the
counter unchanged; and in every sequence of `requestID` and `restart` calls that
keeps the counter below `2 ^ 63`, each id returned is greater than the counter at
the start and than every id returned earlier. -/
theorem request_ids_increase (calls : List Call) (w : World)
    (hbound : w.p.id + calls.count .requestID < 2 ^ 63) :
    (runCalls calls w).Pairwise (· < ·) ∧
    (∀ i ∈ runCalls calls w, (w.p.id : Int) < i) ∧
    (∀ ws, (requestID (freshWorld ws)).2 = 1) ∧
    (∀ dials, (restart dials w).1.p.id = w.p.id) ∧
    (∀ v : World, v.p.id + 1 < 2 ^ 63 →
      (requestID v).1.p.id = v.p.id + 1 ∧ (requestID v).2 = (v.p.id : Int) + 1) :=
  ⟨runCalls_pairwise calls w hbound, runCalls_gt calls w hbound, fun _ => rfl,
    fun dials => restart_id dials w, requestID_of_lt⟩

/-- C9 (amended) at a concrete input: ids 3, 4 and 5 are issued around a reset. -/
theorem request_ids_increase_witness :
    (runCalls [.requestID, .restart [.ok 9], .requestID, .requestID] busyWorld).Pairwise
        (· < ·) ∧
    runCalls [.requestID, .restart [.ok 9], .requestID, .requestID] busyWorld = [3, 4, 5] :=
  ⟨(request_ids_increase [.requestID, .restart [.ok 9], .requestID, .requestID] busyWorld
      (by decide)).1, by decide⟩

/-! ## The response map stays well formed -/

theorem mapDelete_sublist (m : List (Int × ChanId)) (k : Int) : (mapDelete m k).Sublist m :=
  List.filter_sublist m

theorem responsesOK_fresh (ws : Conn) : ResponsesOK (freshWorld ws) := by
  simp [ResponsesOK, freshWorld]

theorem responsesOK_registerResponse (k : Int) (w : World) (h : ResponsesOK w) :
    ResponsesOK (registerResponse k w).1 := by
  obtain ⟨hk, hc, hlt⟩ := h
  have hsub := mapDelete_sublist w.p.responses k
  have hfresh : w.nextChan ∉ (mapDelete w.p.responses k).map Prod.snd := by
    intro hmem
    exact Nat.lt_irrefl _ (hlt _ ((hsub.map Prod.snd).subset hmem))
  have hkey : k ∉ (mapDelete w.p.responses k).map Prod.fst := by
    simp [mapDelete, List.mem_map, List.mem_filter]
  refine ⟨?_, ?_, ?_⟩
  · simp only [registerResponse, World.makeChan, mapSet, List.map_cons, List.nodup_cons]
    exact ⟨hkey, (hsub.map Prod.fst).nodup hk⟩
  · simp only [registerResponse, World.makeChan, mapSet, List.map_cons, List.nodup_cons]
    exact ⟨hfresh, (hsub.map Prod.snd).nodup hc⟩
  · intro ch hch
    simp only [registerResponse, World.makeChan, mapSet, List.map_cons, List.mem_cons] at hch ⊢
    rcases hch with rfl | hch
    · exact Nat.lt_succ_self _
    · exact Nat.lt_succ_of_lt (hlt _ ((hsub.map Prod.snd).subset hch))

theorem responsesOK_unregisterResponse (k : Int) (w : World) (h : ResponsesOK w) :
    ResponsesOK (unregisterResponse k w) := by
  obtain ⟨hk, hc, hlt⟩ := h
  have hsub := mapDelete_sublist w.p.responses k
  exact ⟨(hsub.map Prod.fst).nodup hk, (hsub.map Prod.snd).nodup hc,
    fun ch hch => hlt ch ((hsub.map Prod.snd).subset hch)⟩

end Pyth
